import Mathlib

/-
Verification development for the jenkins-js-logging package (src/index.js).

The embedding below translates the source file into Lean:
the Level enum, the Logger constructor and its prototype methods,
setLogLevel, the logger factory, and the logArgs helper.

The per-category key-value store is the categories subspace of the
external jenkins-js-storage package.  That package is not part of this
repository, so its get operation with the checkDotParent option is
modelled from the spec (hierarchical resolution, section 4.2) and from
the repository test suite (spec/loglevels-spec.js), which pins down the
blank sentinel value written back for queried-but-unset categories.

JavaScript specifics that matter here and are modelled explicitly:
the arguments object of a function is array-like with a plain length
data property that index assignments do NOT update, and
Function.prototype.apply reads exactly length entries of the
array-like it is given.
-/

set_option autoImplicit false

namespace JenkinsLogging

/-- The Level enum of src/index.js: five static property objects.
Reference equality with one of the five enum objects is modelled by
membership in this inductive type. -/
inductive Level where
  | DEBUG
  | LOG
  | INFO
  | WARN
  | ERROR
deriving DecidableEq, Repr

/-- The precedence field of each Level enum object. -/
def Level.precedence : Level → Nat
  | .DEBUG => 0
  | .LOG => 1
  | .INFO => 2
  | .WARN => 3
  | .ERROR => 4

/-- The id field of each Level enum object. -/
def Level.id : Level → String
  | .DEBUG => "DEBUG"
  | .LOG => "LOG"
  | .INFO => "INFO"
  | .WARN => "WARN"
  | .ERROR => "ERROR"

/-- The JavaScript property lookup Level[logLevelId] restricted to the
five static enum properties; any other string yields undefined. -/
def Level.ofId : String → Option Level
  | "DEBUG" => some .DEBUG
  | "LOG" => some .LOG
  | "INFO" => some .INFO
  | "WARN" => some .WARN
  | "ERROR" => some .ERROR
  | _ => none

/-- First-match association-list lookup over the stored key-value pairs. -/
def lookupEntry : List (String × String) → String → Option String
  | [], _ => none
  | (k, v) :: rest, x => if k = x then some v else lookupEntry rest x

/-- Modelled from the spec: the categories StorageNamespace of the
external jenkins-js-storage package, treated as a key-value store from
category names to stored level identifier strings. -/
structure Store where
  entries : List (String × String)
deriving DecidableEq, Repr

/-- Modelled from the spec: the get(key) operation of the external
storage collaborator (no options). -/
def Store.get (s : Store) (k : String) : Option String :=
  lookupEntry s.entries k

/-- Modelled from the spec: the set(key, value) operation of the
external storage collaborator. -/
def Store.set (s : Store) (k v : String) : Store :=
  Store.mk ((k, v) :: s.entries)

/-- Modelled from the spec and the repository tests: a stored value is
treated as unset by the hierarchical walk when it is absent, the empty
string, or the blank sentinel written by an earlier walk. -/
def isBlankVal : Option String → Bool
  | none => true
  | some v => v = "" || v = "_"

/-- Positions before each dot of a category name, as the list of all
proper dot-ancestors (longest first): for a.b.c this is [a.b, a]. -/
def dotAncestors : List Char → List (List Char)
  | [] => []
  | ch :: rest =>
      (dotAncestors rest).map (fun a => ch :: a) ++ (if ch = '.' then [[]] else [])

/-- Strip the last dot-segment of a category name: the substring before
the last dot, or none when the name has no dot. -/
def dropLastSeg : List Char → Option (List Char)
  | [] => none
  | ch :: rest =>
    match dropLastSeg rest with
    | some r => some (ch :: r)
    | none => if ch = '.' then some [] else none

/-- The dot parent of a category: name.substring(0, name.lastIndexOf(dot)),
or none when there is no dot. -/
def dotParent (c : String) : Option String :=
  (dropLastSeg c.data).map (fun l => String.mk l)

/-- The category itself followed by all of its proper dot-ancestors,
in the order the hierarchical walk queries them. -/
def ancestorChain (c : String) : List String :=
  c :: (dotAncestors c.data).map (fun l => String.mk l)

/-- Modelled from the spec: the query loop of get(key, checkDotParent)
of the external storage collaborator, expressed as a walk along the
ancestor chain.  Each queried key whose value is unset receives the
blank sentinel; the walk stops at the first set value.  Returns the
found value (if any), the updated store, and the list of queried keys
that were unset. -/
def walkChain (s : Store) : List String → Option String × Store × List String
  | [] => (none, s, [])
  | a :: rest =>
    if isBlankVal (Store.get s a) then
      let r := walkChain (Store.set s a "_") rest
      (r.1, r.2.1, a :: r.2.2)
    else (Store.get s a, s, [])

/-- Modelled from the spec: categories.get(category, checkDotParent true)
of the external jenkins-js-storage package, the operation the Logger
constructor uses to resolve the level of its category. -/
def getCheckDotParent (s : Store) (c : String) : Option String × Store × List String :=
  walkChain s (ancestorChain c)

/-- The level-resolution part of the Logger constructor of src/index.js:
look the category up with checkDotParent; when the walk found nothing or
the found value is not a valid Level id, default to ERROR and store the
ERROR id under the category.  The walk never returns a blank string, so
the JavaScript test (not logLevelId or not Level[logLevelId]) reduces to
Level.ofId giving none. -/
def resolveLogLevel (s : Store) (c : String) : Level × Store :=
  let r := getCheckDotParent s c
  match r.1 with
  | some logLevelId =>
    match Level.ofId logLevelId with
    | some lv => (lv, r.2.1)
    | none => (Level.ERROR, Store.set r.2.1 c (Level.id Level.ERROR))
  | none => (Level.ERROR, Store.set r.2.1 c (Level.id Level.ERROR))

/-- A Logger instance: the category and the level resolved at
construction time. -/
structure Logger where
  category : String
  logLevel : Level
deriving DecidableEq, Repr

/-- The Logger constructor of src/index.js on a present (string-coerced)
category: resolves the level once and records it with the category. -/
def mkLogger (s : Store) (c : String) : Logger × Store :=
  let r := resolveLogLevel s c
  (Logger.mk c r.1, r.2)

/-- A JavaScript value passed as the category argument of the logger
factory. -/
inductive JSArg where
  | undefined
  | null
  | str (s : String)
  | obj
deriving DecidableEq, Repr

/-- JavaScript string coercion of the category argument, as applied when
the value is embedded into a storage key or a log prefix. -/
def JSArg.toKeyString : JSArg → String
  | .undefined => "undefined"
  | .null => "null"
  | .str s => s
  | .obj => "[object Object]"

/-- The logger factory of src/index.js (exports.logger, which runs the
Logger constructor): only a strictly undefined category argument throws;
every other value is used as the category. -/
def logger (s : Store) (category : JSArg) : Except String (Logger × Store) :=
  match category with
  | JSArg.undefined => Except.error "Cannot create logger. Log category name must be specified."
  | a => Except.ok (mkLogger s (JSArg.toKeyString a))

/-- The level argument passed to setLogLevel: either one of the five
predefined Level enum objects (reference equality), or anything else. -/
inductive SetLevelArg where
  | level (lv : Level)
  | other
deriving DecidableEq, Repr

/-- exports.setLogLevel of src/index.js: reject any argument that is not
one of the predefined enum objects, otherwise store the id string of the
level under the category. -/
def setLogLevel (s : Store) (category : String) (arg : SetLevelArg) : Except String Store :=
  match arg with
  | SetLevelArg.level lv => Except.ok (Store.set s category (Level.id lv))
  | SetLevelArg.other =>
      Except.error "Unexpected arg type for level. Expected one of the predefined Level enums."

/-- A JavaScript value appearing in a console call argument list. -/
inductive JSVal where
  | str (s : String)
  | other (n : Nat)
deriving DecidableEq, Repr

/-- The array-like arguments object of a JavaScript function: indexed
slots plus a length data property.  Index assignment does not update
the length property. -/
structure ArgsObj where
  slots : List JSVal
  len : Nat
deriving DecidableEq, Repr

/-- The arguments object as initialised at a call with the given
argument list. -/
def ArgsObj.ofList (l : List JSVal) : ArgsObj :=
  ArgsObj.mk l l.length

/-- Index assignment on the backing slots: within bounds it replaces,
at the index just past the end it appends (the only cases logArgs
exercises). -/
def listWriteAt : List JSVal → Nat → JSVal → List JSVal
  | [], 0, v => [v]
  | [], Nat.succ _, _ => []
  | _ :: rest, 0, v => v :: rest
  | x :: rest, Nat.succ n, v => x :: listWriteAt rest n v

/-- JavaScript index assignment callArgs[i] = v on the arguments object:
the slot changes, the length property does not. -/
def ArgsObj.setIdx (a : ArgsObj) (i : Nat) (v : JSVal) : ArgsObj :=
  ArgsObj.mk (listWriteAt a.slots i v) a.len

/-- Function.prototype.apply reads exactly length entries of the
array-like it is handed: the argument list a console function actually
receives. -/
def ArgsObj.applied (a : ArgsObj) : List JSVal :=
  a.slots.take a.len

/-- The write-back loop of logArgs: callArgs[ii + 1] = callArgsCopy[ii]
for each remaining copied argument. -/
def writeLoop (a : ArgsObj) : List JSVal → Nat → ArgsObj
  | [], _ => a
  | v :: rest, i => writeLoop (ArgsObj.setIdx a (i + 1) v) rest (i + 1)

/-- The logArgs helper of src/index.js: with a non-empty argument list,
build the prefix, absorb the first argument into the prefix when it is
a string, write the prefix at index 0 and the copied arguments at the
following indices of the original arguments object. -/
def logArgs (level : Level) (category : String) (callArgs : ArgsObj) : ArgsObj :=
  if callArgs.len = 0 then callArgs
  else
    let callArgsCopy := callArgs.slots.take callArgs.len
    let pfx := "[" ++ Level.id level ++ " - " ++ category ++ "] "
    match callArgsCopy with
    | JSVal.str s :: rest =>
        writeLoop (ArgsObj.setIdx callArgs 0 (JSVal.str (pfx ++ s))) rest 0
    | l => writeLoop (ArgsObj.setIdx callArgs 0 (JSVal.str pfx)) l 0

/-- Logger.prototype.isEnabled: candidate precedence at least the
resolved precedence. -/
def Logger.isEnabled (self : Logger) (level : Level) : Bool :=
  decide (Level.precedence level ≥ Level.precedence self.logLevel)

/-- Logger.prototype.isDebugEnabled. -/
def Logger.isDebugEnabled (self : Logger) : Bool :=
  Logger.isEnabled self Level.DEBUG

/-- Logger.prototype.isLogEnabled. -/
def Logger.isLogEnabled (self : Logger) : Bool :=
  Logger.isEnabled self Level.LOG

/-- Logger.prototype.isInfoEnabled. -/
def Logger.isInfoEnabled (self : Logger) : Bool :=
  Logger.isEnabled self Level.INFO

/-- Logger.prototype.isWarnEnabled. -/
def Logger.isWarnEnabled (self : Logger) : Bool :=
  Logger.isEnabled self Level.WARN

/-- The console function a logging method targets. -/
inductive ConsoleFn where
  | debugFn
  | logFn
  | infoFn
  | warnFn
  | errorFn
deriving DecidableEq, Repr

/-- One console emission: the console function applied to an argument
list. -/
structure ConsoleEvent where
  fn : ConsoleFn
  args : List JSVal
deriving DecidableEq, Repr

/-- Logger.prototype.debug: the method reads this but never writes it;
it emits on console.debug only when DEBUG is enabled. -/
def Logger.debugM (self : Logger) (callArgs : ArgsObj) : Logger × List ConsoleEvent :=
  (self,
    if Logger.isEnabled self Level.DEBUG then
      [ConsoleEvent.mk ConsoleFn.debugFn (ArgsObj.applied (logArgs Level.DEBUG self.category callArgs))]
    else [])

/-- Logger.prototype.log. -/
def Logger.logM (self : Logger) (callArgs : ArgsObj) : Logger × List ConsoleEvent :=
  (self,
    if Logger.isEnabled self Level.LOG then
      [ConsoleEvent.mk ConsoleFn.logFn (ArgsObj.applied (logArgs Level.LOG self.category callArgs))]
    else [])

/-- Logger.prototype.info. -/
def Logger.infoM (self : Logger) (callArgs : ArgsObj) : Logger × List ConsoleEvent :=
  (self,
    if Logger.isEnabled self Level.INFO then
      [ConsoleEvent.mk ConsoleFn.infoFn (ArgsObj.applied (logArgs Level.INFO self.category callArgs))]
    else [])

/-- Logger.prototype.warn. -/
def Logger.warnM (self : Logger) (callArgs : ArgsObj) : Logger × List ConsoleEvent :=
  (self,
    if Logger.isEnabled self Level.WARN then
      [ConsoleEvent.mk ConsoleFn.warnFn (ArgsObj.applied (logArgs Level.WARN self.category callArgs))]
    else [])

/-- Logger.prototype.error: error messages are always logged, there is
no enablement check in the source. -/
def Logger.errorM (self : Logger) (callArgs : ArgsObj) : Logger × List ConsoleEvent :=
  (self,
    [ConsoleEvent.mk ConsoleFn.errorFn (ArgsObj.applied (logArgs Level.ERROR self.category callArgs))])

/-- Lookup along a chain of category names in a fixed store, skipping
unset values, as the hierarchical walk does but without the sentinel
write-backs. -/
def chainLookup (s : Store) : List String → Option String
  | [] => none
  | a :: rest =>
    if isBlankVal (Store.get s a) then chainLookup s rest else Store.get s a

/-- Lookup along a chain of category names returning the first stored
value that is a VALID level id, skipping both unset and spurious
values.  This follows the wording of claim C1, not the source. -/
def chainValidLookup (s : Store) : List String → Option Level
  | [] => none
  | a :: rest =>
    match (Store.get s a).bind Level.ofId with
    | some lv => some lv
    | none => chainValidLookup s rest

/-- The resolution function claim C1 describes: the configured level of
the nearest dot-ancestor that has a VALID configured level, ERROR when
no such ancestor exists.  This follows the claim wording, for
comparison against the source translation. -/
def claimNearestValidResolve (s : Store) (c : String) : Level :=
  (chainValidLookup s (ancestorChain c)).getD Level.ERROR

/-- The resolution the source actually performs, phrased over a fixed
store: the value at the nearest ancestor whose stored value is set and
non-blank, interpreted as a Level when valid and defaulted to ERROR
otherwise. -/
def amendedResolve (s : Store) (c : String) : Level :=
  match chainLookup s (ancestorChain c) with
  | some v =>
    match Level.ofId v with
    | some lv => lv
    | none => Level.ERROR
  | none => Level.ERROR

/-
Lemmas about the store and the hierarchical walk.
-/

theorem get_set_self (s : Store) (k v : String) :
    Store.get (Store.set s k v) k = some v := by
  simp [Store.get, Store.set, lookupEntry]

theorem get_set_ne (s : Store) (k v x : String) (h : x ≠ k) :
    Store.get (Store.set s k v) x = Store.get s x := by
  simp only [Store.get, Store.set, lookupEntry]
  rw [if_neg (fun hh => h hh.symm)]

theorem dotAncestors_nil : dotAncestors [] = [] := rfl

theorem dotAncestors_cons (ch : Char) (rest : List Char) :
    dotAncestors (ch :: rest) =
      (dotAncestors rest).map (fun a => ch :: a) ++ (if ch = '.' then [[]] else []) := rfl

theorem dropLastSeg_nil : dropLastSeg [] = none := rfl

theorem dropLastSeg_cons (ch : Char) (rest : List Char) :
    dropLastSeg (ch :: rest) =
      (match dropLastSeg rest with
       | some r => some (ch :: r)
       | none => if ch = '.' then some [] else none) := rfl

theorem walkChain_nil (s : Store) : walkChain s [] = (none, s, []) := rfl

theorem walkChain_cons (s : Store) (a : String) (rest : List String) :
    walkChain s (a :: rest) =
      (if isBlankVal (Store.get s a) then
        ((walkChain (Store.set s a "_") rest).1,
         (walkChain (Store.set s a "_") rest).2.1,
         a :: (walkChain (Store.set s a "_") rest).2.2)
      else (Store.get s a, s, [])) := rfl

theorem chainLookup_cons (s : Store) (a : String) (rest : List String) :
    chainLookup s (a :: rest) =
      (if isBlankVal (Store.get s a) then chainLookup s rest else Store.get s a) := rfl

theorem dotAncestors_mem_length :
    ∀ (l : List Char), ∀ a ∈ dotAncestors l, a.length < l.length := by
  intro l
  induction l with
  | nil => intro a ha; simp [dotAncestors_nil] at ha
  | cons ch rest ih =>
    intro a ha
    rw [dotAncestors_cons] at ha
    rcases List.mem_append.mp ha with hmap | hif
    · rcases List.mem_map.mp hmap with ⟨b, hb, rfl⟩
      simpa using Nat.succ_lt_succ (ih b hb)
    · by_cases hch : ch = '.'
      · rw [if_pos hch] at hif
        rw [List.mem_singleton.mp hif]
        simp
      · rw [if_neg hch] at hif
        exact absurd hif (List.not_mem_nil a)

theorem dotAncestors_pairwise :
    ∀ (l : List Char), (dotAncestors l).Pairwise (fun a b => b.length < a.length) := by
  intro l
  induction l with
  | nil => simp [dotAncestors_nil]
  | cons ch rest ih =>
    rw [dotAncestors_cons, List.pairwise_append]
    refine ⟨?_, ?_, ?_⟩
    · rw [List.pairwise_map]
      exact ih.imp (fun h => Nat.succ_lt_succ h)
    · split <;> simp
    · intro x hx y hy
      rcases List.mem_map.mp hx with ⟨b, _, rfl⟩
      by_cases hch : ch = '.'
      · rw [if_pos hch] at hy
        rw [List.mem_singleton.mp hy]
        simp
      · rw [if_neg hch] at hy
        exact absurd hy (List.not_mem_nil y)

theorem ancestorChain_pairwise_len (c : String) :
    (ancestorChain c).Pairwise (fun a b => b.length < a.length) := by
  unfold ancestorChain
  rw [List.pairwise_cons]
  constructor
  · intro b hb
    rcases List.mem_map.mp hb with ⟨a, ha, rfl⟩
    exact dotAncestors_mem_length c.data a ha
  · rw [List.pairwise_map]
    exact (dotAncestors_pairwise c.data).imp (fun h => h)

theorem ancestorChain_pairwise_ne (c : String) :
    (ancestorChain c).Pairwise (fun a b => a ≠ b) := by
  refine (ancestorChain_pairwise_len c).imp ?_
  intro a b h heq
  rw [heq] at h
  exact Nat.lt_irrefl _ h

theorem chainLookup_set_notmem (chain : List String) (s : Store) (k v : String)
    (h : ∀ x ∈ chain, x ≠ k) :
    chainLookup (Store.set s k v) chain = chainLookup s chain := by
  induction chain with
  | nil => rfl
  | cons a rest ih =>
    have ha : a ≠ k := h a (List.mem_cons_self a rest)
    have hrest := ih (fun x hx => h x (List.mem_cons_of_mem a hx))
    simp only [chainLookup, get_set_ne s k v a ha, hrest]

theorem takeWhileCongr {α : Type} (p q : α → Bool) :
    ∀ (l : List α), (∀ x ∈ l, p x = q x) → l.takeWhile p = l.takeWhile q := by
  intro l
  induction l with
  | nil => intro _; rfl
  | cons a rest ih =>
    intro h
    have ha := h a (List.mem_cons_self a rest)
    rw [List.takeWhile_cons, List.takeWhile_cons, ha,
      ih (fun x hx => h x (List.mem_cons_of_mem a hx))]

theorem walkChain_fst :
    ∀ (chain : List String) (s : Store), chain.Pairwise (fun a b => a ≠ b) →
      (walkChain s chain).1 = chainLookup s chain := by
  intro chain
  induction chain with
  | nil => intro s _; rfl
  | cons a rest ih =>
    intro s h
    rw [List.pairwise_cons] at h
    obtain ⟨hmem, hrest⟩ := h
    rw [walkChain_cons, chainLookup_cons]
    cases hb : isBlankVal (Store.get s a) with
    | true =>
      simp only [if_pos rfl]
      exact (ih (Store.set s a "_") hrest).trans
        (chainLookup_set_notmem rest s a "_" (fun x hx => Ne.symm (hmem x hx)))
    | false =>
      simp only [if_neg Bool.false_ne_true]

theorem walkChain_get_notmem :
    ∀ (chain : List String) (s : Store) (x : String), x ∉ chain →
      Store.get (walkChain s chain).2.1 x = Store.get s x := by
  intro chain
  induction chain with
  | nil => intro s x _; rfl
  | cons a rest ih =>
    intro s x hx
    have hxa : x ≠ a := fun h => hx (h ▸ List.mem_cons_self a rest)
    have hxr : x ∉ rest := fun h => hx (List.mem_cons_of_mem a h)
    rw [walkChain_cons]
    cases hb : isBlankVal (Store.get s a) with
    | true =>
      simp only [if_pos rfl]
      exact (ih (Store.set s a "_") x hxr).trans (get_set_ne s a "_" x hxa)
    | false =>
      simp only [if_neg Bool.false_ne_true]

theorem walkChain_writes_blank :
    ∀ (chain : List String) (s : Store), chain.Pairwise (fun a b => a ≠ b) →
      ∀ x ∈ chain.takeWhile (fun a => isBlankVal (Store.get s a)),
        Store.get (walkChain s chain).2.1 x = some "_" := by
  intro chain
  induction chain with
  | nil => intro s _ x hx; simp [List.takeWhile] at hx
  | cons a rest ih =>
    intro s h x hx
    rw [List.pairwise_cons] at h
    obtain ⟨hmem, hrest⟩ := h
    rw [List.takeWhile_cons] at hx
    rw [walkChain_cons]
    cases hb : isBlankVal (Store.get s a) with
    | true =>
      simp only [hb, if_pos rfl] at hx
      simp only [if_pos rfl]
      rcases List.mem_cons.mp hx with rfl | hx2
      · have hna : x ∉ rest := fun hmem2 => (hmem x hmem2) rfl
        exact (walkChain_get_notmem rest (Store.set s x "_") x hna).trans (get_set_self s x "_")
      · have hx3 : x ∈ rest.takeWhile (fun y => isBlankVal (Store.get (Store.set s a "_") y)) := by
          rw [takeWhileCongr _ (fun y => isBlankVal (Store.get s y)) rest
            (fun y hy => by rw [get_set_ne s a "_" y (fun hh => (hmem y hy) hh.symm)])]
          exact hx2
        exact ih (Store.set s a "_") hrest x hx3
    | false =>
      simp only [hb, if_neg Bool.false_ne_true] at hx
      exact absurd hx (List.not_mem_nil x)

/-
Fidelity of the structural ancestor chain: the chain is exactly the
strip-the-last-dot-segment-and-retry recursion of the spec.
-/

theorem dotAncestors_parent :
    ∀ (l : List Char), dotAncestors l =
      (match dropLastSeg l with
       | some p => p :: dotAncestors p
       | none => []) := by
  intro l
  induction l with
  | nil => rfl
  | cons ch rest ih =>
    rw [dotAncestors_cons, dropLastSeg_cons]
    cases hd : dropLastSeg rest with
    | some r =>
      have hrec : dotAncestors rest = r :: dotAncestors r := by rw [ih, hd]
      rw [hrec, List.map_cons]
      rw [show ((ch :: r) :: (dotAncestors r).map (fun a => ch :: a))
            ++ (if ch = '.' then [[]] else []) =
          (ch :: r) :: dotAncestors (ch :: r) from by rw [dotAncestors_cons, List.cons_append]]
    | none =>
      have hrec : dotAncestors rest = ([] : List (List Char)) := by rw [ih, hd]
      rw [hrec, List.map_nil, List.nil_append]
      by_cases hch : ch = '.'
      · rw [if_pos hch, if_pos hch]
        rfl
      · rw [if_neg hch, if_neg hch]

theorem ancestorChain_parent (c : String) :
    ancestorChain c =
      c :: (match dotParent c with
            | some p => ancestorChain p
            | none => []) := by
  unfold ancestorChain dotParent
  rw [dotAncestors_parent c.data]
  cases hd : dropLastSeg c.data with
  | some p => rfl
  | none => rfl

theorem getCheckDotParent_parent (s : Store) (c : String) :
    getCheckDotParent s c =
      (if isBlankVal (Store.get s c) then
        (match dotParent c with
         | some p =>
             ((getCheckDotParent (Store.set s c "_") p).1,
              (getCheckDotParent (Store.set s c "_") p).2.1,
              c :: (getCheckDotParent (Store.set s c "_") p).2.2)
         | none => (none, Store.set s c "_", [c]))
      else (Store.get s c, s, [])) := by
  unfold getCheckDotParent
  rw [show walkChain s (ancestorChain c)
        = walkChain s (c :: (match dotParent c with
            | some p => ancestorChain p
            | none => [])) from by rw [← ancestorChain_parent c]]
  rw [walkChain_cons]
  cases hd : dotParent c with
  | some p => rfl
  | none => rfl

theorem level_id_not_blank (lv : Level) : isBlankVal (some (Level.id lv)) = false := by
  cases lv <;> rfl

theorem level_ofId_id (lv : Level) : Level.ofId (Level.id lv) = some lv := by
  cases lv <;> rfl

theorem resolve_set_self (s : Store) (c : String) (lv : Level) :
    (resolveLogLevel (Store.set s c (Level.id lv)) c).1 = lv := by
  simp [resolveLogLevel, getCheckDotParent, ancestorChain, walkChain, get_set_self,
    level_id_not_blank, level_ofId_id]

/-
Sanity: the resolutions the repository test suite pins down.
-/

theorem resolution_matches_tests :
    (mkLogger (Store.mk [("a.b.c", "DEBUG"), ("a.b", "INFO"), ("a", "WARN")]) "a.b.d").1.logLevel
        = Level.INFO ∧
    (mkLogger (Store.mk [("a.b.c", "DEBUG"), ("a.b", "INFO"), ("a", "WARN")]) "a.x.a").1.logLevel
        = Level.WARN ∧
    (mkLogger (Store.mk [("a.b.c", "DEBUG"), ("a.b", "INFO"), ("a", "WARN")]) "z.z.z").1.logLevel
        = Level.ERROR ∧
    Store.get (mkLogger (Store.mk [("a.b.c", "DEBUG"), ("a.b", "INFO"), ("a", "WARN")]) "a.b.d").2
        "a.b.d" = some "_" := by
  exact ⟨by decide, by decide, by decide, by decide⟩

/-
The claims.
-/

/-- C1, counterexample: the claim says the resolved level equals the
configured level of the nearest dot-ancestor that has a VALID configured
level.  With the store holding a spurious value FOO at a.b and a valid
DEBUG at a, the walk stops at a.b, the Logger for a.b.c defaults to
ERROR, while the nearest ancestor with a valid configured level is a
with DEBUG.  So the claim fails at this input. -/
theorem c1_nearest_valid_counterexample :
    (mkLogger (Store.mk [("a.b", "FOO"), ("a", "DEBUG")]) "a.b.c").1.logLevel = Level.ERROR ∧
    claimNearestValidResolve (Store.mk [("a.b", "FOO"), ("a", "DEBUG")]) "a.b.c" = Level.DEBUG ∧
    (mkLogger (Store.mk [("a.b", "FOO"), ("a", "DEBUG")]) "a.b.c").1.logLevel ≠
      claimNearestValidResolve (Store.mk [("a.b", "FOO"), ("a", "DEBUG")]) "a.b.c" :=
  ⟨by decide, by decide, by decide⟩

/-- C1, amended: the Logger created for category c has exactly one
resolved level, computed once at construction, equal to the stored value
at the nearest dot-ancestor of c whose stored value is set and
non-blank, interpreted as a Level when it is a valid level id; the
resolved level is Level.ERROR when no ancestor has a set non-blank value
or when the nearest set non-blank value is spurious. -/
theorem c1_resolution_amended :
    ∀ (s : Store) (c : String),
      (mkLogger s c).1.logLevel = amendedResolve s c := by
  intro s c
  have h := walkChain_fst (ancestorChain c) s (ancestorChain_pairwise_ne c)
  show (resolveLogLevel s c).1 = amendedResolve s c
  simp only [resolveLogLevel, amendedResolve, getCheckDotParent]
  rw [h]
  cases chainLookup s (ancestorChain c) with
  | none => rfl
  | some v =>
    cases hv : Level.ofId v with
    | none => simp [hv]
    | some lv => simp [hv]

/-- C2: during the dot-parent walk performed at logger creation, the
blank sentinel is written back into storage for every unset segment the
walk actually queries (the maximal prefix of the ancestor chain whose
stored values are unset), so all touched categories become visible in a
storage inspector. -/
theorem c2_blank_sentinel_writeback :
    ∀ (s : Store) (c : String) (x : String),
      x ∈ (ancestorChain c).takeWhile (fun a => isBlankVal (Store.get s a)) →
      Store.get (getCheckDotParent s c).2.1 x = some "_" := by
  intro s c x hx
  exact walkChain_writes_blank (ancestorChain c) s (ancestorChain_pairwise_ne c) x hx

/-- C2, witness: with only a.b configured, creating a logger for a.b.d
queries a.b.d (unset) and leaves the blank sentinel stored there. -/
theorem c2_blank_sentinel_writeback_witness :
    Store.get (getCheckDotParent (Store.mk [("a.b", "INFO")]) "a.b.d").2.1 "a.b.d" = some "_" :=
  c2_blank_sentinel_writeback (Store.mk [("a.b", "INFO")]) "a.b.d" "a.b.d" (by decide)

/-- C3: isEnabled returns true exactly when the candidate precedence is
at least the resolved precedence of the logger. -/
theorem c3_isEnabled_iff_precedence_ge :
    ∀ (L : Logger) (lv : Level),
      Logger.isEnabled L lv = true ↔ Level.precedence lv ≥ Level.precedence L.logLevel := by
  intro L lv
  simp [Logger.isEnabled]

/-- C4: isEnabled is monotone in precedence order: a level of lower or
equal precedence being enabled forces every level of higher precedence
to be enabled too. -/
theorem c4_isEnabled_monotone :
    ∀ (L : Logger) (l1 l2 : Level),
      Level.precedence l1 ≤ Level.precedence l2 →
      Logger.isEnabled L l1 = true → Logger.isEnabled L l2 = true := by
  intro L l1 l2 hle h1
  simp [Logger.isEnabled] at h1 ⊢
  omega

/-- C4, witness: monotonicity applied to a WARN logger at the pair WARN,
ERROR. -/
theorem c4_isEnabled_monotone_witness :
    Level.precedence Level.WARN ≤ Level.precedence Level.ERROR ∧
    Logger.isEnabled (Logger.mk "a" Level.WARN) Level.WARN = true ∧
    Logger.isEnabled (Logger.mk "a" Level.WARN) Level.ERROR = true :=
  ⟨by decide, by decide,
    c4_isEnabled_monotone (Logger.mk "a" Level.WARN) Level.WARN Level.ERROR
      (by decide) (by decide)⟩

/-- C5: setLogLevel rejects any argument that is not one of the
predefined Level enums with an invocation error, returning no updated
store (the category storage is untouched), and for every predefined
Level it stores the id string of that level under the category without
an error. -/
theorem c5_setLogLevel_validation :
    ∀ (s : Store) (c : String),
      setLogLevel s c SetLevelArg.other =
        Except.error "Unexpected arg type for level. Expected one of the predefined Level enums." ∧
      ∀ (lv : Level),
        setLogLevel s c (SetLevelArg.level lv) = Except.ok (Store.set s c (Level.id lv)) :=
  fun _ _ => ⟨rfl, fun _ => rfl⟩

/-- C6: a missing (undefined) category argument makes logger creation
fail fast with an error, and no Logger is constructed. -/
theorem c6_missing_category_fails :
    ∀ (s : Store),
      logger s JSArg.undefined =
        Except.error "Cannot create logger. Log category name must be specified." :=
  fun _ => rfl

/-- C7: a Logger is immutable after construction: its category and
resolved level are those computed from the store at construction time,
every logging method returns the logger unchanged, and a later
setLogLevel on the same category leaves the constructed logger with its
original level; only constructing a new Logger re-resolves (and then
finds the newly stored level). -/
theorem c7_logger_immutable :
    ∀ (s : Store) (c : String) (lv : Level) (callArgs : ArgsObj),
      (Logger.debugM (mkLogger s c).1 callArgs).1 = (mkLogger s c).1 ∧
      (Logger.logM (mkLogger s c).1 callArgs).1 = (mkLogger s c).1 ∧
      (Logger.infoM (mkLogger s c).1 callArgs).1 = (mkLogger s c).1 ∧
      (Logger.warnM (mkLogger s c).1 callArgs).1 = (mkLogger s c).1 ∧
      (Logger.errorM (mkLogger s c).1 callArgs).1 = (mkLogger s c).1 ∧
      (mkLogger s c).1.category = c ∧
      (mkLogger s c).1.logLevel = (resolveLogLevel s c).1 ∧
      (∀ s2, setLogLevel (mkLogger s c).2 c (SetLevelArg.level lv) = Except.ok s2 →
        (mkLogger s c).1.logLevel = (resolveLogLevel s c).1 ∧
        (mkLogger s2 c).1.logLevel = lv) := by
  intro s c lv callArgs
  refine ⟨rfl, rfl, rfl, rfl, rfl, rfl, rfl, ?_⟩
  intro s2 h
  have hs2 : Store.set (mkLogger s c).2 c (Level.id lv) = s2 := Except.ok.inj h
  refine ⟨rfl, ?_⟩
  rw [← hs2]
  exact resolve_set_self (mkLogger s c).2 c lv

/-- C7, witness: construct a logger for a on an empty store, set DEBUG
for a afterwards, and observe that only the newly constructed logger
carries DEBUG. -/
theorem c7_logger_immutable_witness :
    (mkLogger (Store.set (mkLogger (Store.mk []) "a").2 "a" (Level.id Level.DEBUG)) "a").1.logLevel
      = Level.DEBUG :=
  ((c7_logger_immutable (Store.mk []) "a" Level.DEBUG (ArgsObj.ofList [])).2.2.2.2.2.2.2
    (Store.set (mkLogger (Store.mk []) "a").2 "a" (Level.id Level.DEBUG)) rfl).2

/-- C8: the error method always emits on console.error with no
enablement check, and isEnabled at Level.ERROR is true for every Logger
since every resolvable level has precedence at most the ERROR
precedence. -/
theorem c8_error_always_emits :
    ∀ (L : Logger) (callArgs : ArgsObj),
      (Logger.errorM L callArgs).2 =
        [ConsoleEvent.mk ConsoleFn.errorFn
          (ArgsObj.applied (logArgs Level.ERROR L.category callArgs))] ∧
      Logger.isEnabled L Level.ERROR = true := by
  intro L callArgs
  refine ⟨rfl, ?_⟩
  rcases L with ⟨cat, lvl⟩
  cases lvl <;> rfl

/-- C9, evaluation at the failing input: a DEBUG-enabled logger called
with the single non-string argument 42 emits only the prefix string; the
original argument is dropped, because the index shift writes past the
arguments object length, the length property is not updated, and apply
reads only length entries.  The claim expects the prefix followed by the
original argument. -/
theorem c9_dropped_last_argument :
    (Logger.debugM (Logger.mk "c" Level.DEBUG) (ArgsObj.ofList [JSVal.other 42])).2 =
      [ConsoleEvent.mk ConsoleFn.debugFn [JSVal.str "[DEBUG - c] "]] := by
  decide

/-- C10: logger creation throws exactly for the strictly undefined
category argument; null, strings (including the empty string) and
non-string objects all pass the check and yield a Logger resolved
through the normal storage lookup on the string coercion of the
argument. -/
theorem c10_only_undefined_throws :
    ∀ (s : Store) (a : JSArg),
      ((∃ msg, logger s a = Except.error msg) ↔ a = JSArg.undefined) ∧
      (a ≠ JSArg.undefined → logger s a = Except.ok (mkLogger s (JSArg.toKeyString a))) := by
  intro s a
  cases a with
  | undefined =>
    exact ⟨⟨fun _ => rfl,
      fun _ => ⟨"Cannot create logger. Log category name must be specified.", rfl⟩⟩,
      fun h => absurd rfl h⟩
  | null =>
    refine ⟨⟨?_, ?_⟩, fun _ => rfl⟩
    · rintro ⟨msg, hmsg⟩
      exact Except.noConfusion hmsg
    · intro h
      exact JSArg.noConfusion h
  | str s2 =>
    refine ⟨⟨?_, ?_⟩, fun _ => rfl⟩
    · rintro ⟨msg, hmsg⟩
      exact Except.noConfusion hmsg
    · intro h
      exact JSArg.noConfusion h
  | obj =>
    refine ⟨⟨?_, ?_⟩, fun _ => rfl⟩
    · rintro ⟨msg, hmsg⟩
      exact Except.noConfusion hmsg
    · intro h
      exact JSArg.noConfusion h

/-- C10, witness: a null category passes the missing-category check and
constructs a logger for the coerced key. -/
theorem c10_only_undefined_throws_witness :
    logger (Store.mk []) JSArg.null = Except.ok (mkLogger (Store.mk []) "null") :=
  (c10_only_undefined_throws (Store.mk []) JSArg.null).2 (by decide)

end JenkinsLogging
